import Mathlib

/-!
Verification of the fractal generation engine (`src/utils/fractalAlgorithms.ts`).

The generators are embedded shallowly over `ℚ`: coordinates are rational, the
transcendental library functions the code calls (`Math.cos`, `Math.sin`,
`Math.atan2`, `Math.sqrt`, `Math.PI`) are abstracted into a record `MathLib` of
uninterpreted rational functions, since none of the structural properties
proved here depend on their values.  The escape-time loops, pixel-to-plane
mapping and HSL→RGB color mapping are exact rational arithmetic; the `ImageData`
raster is modelled by its two dimensions plus a byte function, with writes as
bounds-checked pointwise updates (out-of-range writes are no-ops, as on a
`Uint8ClampedArray`).
-/

/-- Model of `Point {x, y}`: real-valued 2-D coordinate in pixel space. -/
structure Point where
  x : ℚ
  y : ℚ
deriving DecidableEq, Repr

/-- The transcendental functions of the host math library, left uninterpreted. -/
structure MathLib where
  pi : ℚ
  cos : ℚ → ℚ
  sin : ℚ → ℚ
  atan2 : ℚ → ℚ → ℚ
  sqrt : ℚ → ℚ

/-- Embedding of `KochCurve.generate(p1, p2, iterations)`. -/
def KochCurve.generate (M : MathLib) (p1 p2 : Point) (iterations : ℕ) : List Point :=
  match iterations with
  | 0 => [p1, p2]
  | n + 1 =>
    let dx := p2.x - p1.x
    let dy := p2.y - p1.y
    let p3 : Point := ⟨p1.x + dx / 3, p1.y + dy / 3⟩
    let p5 : Point := ⟨p1.x + (2 * dx) / 3, p1.y + (2 * dy) / 3⟩
    let angle := M.pi / 3
    let length := M.sqrt ((dx / 3) ^ 2 + (dy / 3) ^ 2)
    let baseAngle := M.atan2 dy dx
    let p4 : Point := ⟨p3.x + length * M.cos (baseAngle - angle),
                       p3.y + length * M.sin (baseAngle - angle)⟩
    let seg1 := KochCurve.generate M p1 p3 n
    let seg2 := KochCurve.generate M p3 p4 n
    let seg3 := KochCurve.generate M p4 p5 n
    let seg4 := KochCurve.generate M p5 p2 n
    seg1.dropLast ++ seg2.dropLast ++ seg3.dropLast ++ seg4

/-- Embedding of `KochCurve.generateSnowflake(center, radius, iterations)`: one Koch side per
edge of the equilateral triangle whose vertices sit at angles 0, 2π/3, 4π/3. -/
def KochCurve.generateSnowflake (M : MathLib) (center : Point) (radius : ℚ)
    (iterations : ℕ) : List (List Point) :=
  let angles : List ℚ := [0, 2 * M.pi / 3, 4 * M.pi / 3]
  (List.range 3).map (fun i =>
    let angle1 := angles.getD i 0
    let angle2 := angles.getD ((i + 1) % 3) 0
    let p1 : Point := ⟨center.x + radius * M.cos angle1, center.y + radius * M.sin angle1⟩
    let p2 : Point := ⟨center.x + radius * M.cos angle2, center.y + radius * M.sin angle2⟩
    KochCurve.generate M p1 p2 iterations)

/-- Embedding of `SierpinskiTriangle.generate(p1, p2, p3, iterations)`. -/
def SierpinskiTriangle.generate (p1 p2 p3 : Point) (iterations : ℕ) : List (List Point) :=
  match iterations with
  | 0 => [[p1, p2, p3]]
  | n + 1 =>
    let mid1 : Point := ⟨(p1.x + p2.x) / 2, (p1.y + p2.y) / 2⟩
    let mid2 : Point := ⟨(p2.x + p3.x) / 2, (p2.y + p3.y) / 2⟩
    let mid3 : Point := ⟨(p3.x + p1.x) / 2, (p3.y + p1.y) / 2⟩
    SierpinskiTriangle.generate p1 mid1 mid3 n ++
      SierpinskiTriangle.generate mid1 p2 mid2 n ++
        SierpinskiTriangle.generate mid3 mid2 p3 n

/-- The `{real, imag}` pairs used by the escape-time engine. -/
structure ComplexQ where
  real : ℚ
  imag : ℚ
deriving DecidableEq, Repr

/-- The `while` loop of `MandelbrotSet.isInSet`, with fuel
`remaining = maxIterations - iterations` standing for the loop guard
`iterations < maxIterations`. -/
def MandelbrotSet.isInSetLoop (c z : ComplexQ) (remaining iterations : ℕ) : ℕ :=
  match remaining with
  | 0 => iterations
  | r + 1 =>
    if z.real * z.real + z.imag * z.imag < 4 then
      MandelbrotSet.isInSetLoop c
        ⟨z.real * z.real - z.imag * z.imag + c.real, 2 * z.real * z.imag + c.imag⟩
        r (iterations + 1)
    else iterations

/-- Embedding of `MandelbrotSet.isInSet(c, maxIterations)`: z starts at the origin. -/
def MandelbrotSet.isInSet (c : ComplexQ) (maxIterations : ℕ) : ℕ :=
  MandelbrotSet.isInSetLoop c ⟨0, 0⟩ maxIterations 0

/-- The `while` loop of the private `JuliaSet.isInSet`. -/
def JuliaSet.isInSetLoop (z c : ComplexQ) (remaining iterations : ℕ) : ℕ :=
  match remaining with
  | 0 => iterations
  | r + 1 =>
    if z.real * z.real + z.imag * z.imag < 4 then
      JuliaSet.isInSetLoop
        ⟨z.real * z.real - z.imag * z.imag + c.real, 2 * z.real * z.imag + c.imag⟩
        c r (iterations + 1)
    else iterations

/-- Embedding of `JuliaSet.isInSet(z, c, maxIterations)`: z starts at the queried point. -/
def JuliaSet.isInSet (z c : ComplexQ) (maxIterations : ℕ) : ℕ :=
  JuliaSet.isInSetLoop z c maxIterations 0

/-- JS `%` on the nonnegative rationals produced by the color mapping. -/
def qmod (a b : ℚ) : ℚ := a - b * ((a / b).floor : ℚ)

structure RGB where
  r : ℕ
  g : ℕ
  b : ℕ
deriving DecidableEq, Repr

/-- Embedding of `MandelbrotSet.hslToRgb(h, s, l)`: the standard six-sector piecewise formula;
`Math.round x = ⌊x + 1/2⌋` on the nonnegative values produced here. -/
def MandelbrotSet.hslToRgb (h0 s0 l0 : ℚ) : RGB :=
  let h := h0 / 360
  let s := s0 / 100
  let l := l0 / 100
  let c := (1 - |2 * l - 1|) * s
  let x := c * (1 - |qmod (h * 6) 2 - 1|)
  let m := l - c / 2
  let rgb : ℚ × ℚ × ℚ :=
    if 0 ≤ h ∧ h < 1/6 then (c, x, 0)
    else if 1/6 ≤ h ∧ h < 1/3 then (x, c, 0)
    else if 1/3 ≤ h ∧ h < 1/2 then (0, c, x)
    else if 1/2 ≤ h ∧ h < 2/3 then (0, x, c)
    else if 2/3 ≤ h ∧ h < 5/6 then (x, 0, c)
    else if 5/6 ≤ h ∧ h < 1 then (c, 0, x)
    else (0, 0, 0)
  ⟨(round ((rgb.1 + m) * 255)).toNat,
   (round ((rgb.2.1 + m) * 255)).toNat,
   (round ((rgb.2.2 + m) * 255)).toNat⟩

/-- Model of `ImageData(width, height)`: a width×height×4 byte buffer, modelled as its
dimensions plus the byte at each index. -/
structure ImageData where
  width : ℕ
  height : ℕ
  data : ℕ → ℕ

def ImageData.size (im : ImageData) : ℕ := im.width * im.height * 4

/-- A fresh `new ImageData(width, height)` is zero-initialized. -/
def ImageData.mkBlank (width height : ℕ) : ImageData := ⟨width, height, fun _ => 0⟩

/-- One store `data[i] = v`: out-of-range writes on a `Uint8ClampedArray` are ignored. -/
def ImageData.setByte (im : ImageData) (i v : ℕ) : ImageData :=
  if i < im.size then { im with data := fun j => if j = i then v else im.data j } else im

/-- The four `data[index+k] = ...` stores of one loop body. -/
def ImageData.writePixel (im : ImageData) (index r g b a : ℕ) : ImageData :=
  ((((im.setByte index r).setByte (index + 1) g).setByte (index + 2) b).setByte (index + 3) a)

/-- The mapping `real = (x - width/2) / (zoom * width/4) + offsetX` of both rasterizers. -/
def pixelReal (width : ℕ) (zoom offsetX : ℚ) (x : ℕ) : ℚ :=
  ((x : ℚ) - (width : ℚ) / 2) / (zoom * (width : ℚ) / 4) + offsetX

/-- The mapping `imag = (y - height/2) / (zoom * height/4) + offsetY` of both rasterizers. -/
def pixelImag (height : ℕ) (zoom offsetY : ℚ) (y : ℕ) : ℚ :=
  ((y : ℚ) - (height : ℚ) / 2) / (zoom * (height : ℚ) / 4) + offsetY

/-- The RGBA quadruplet `MandelbrotSet.generate` computes for pixel (x, y). -/
def MandelbrotSet.pixelRGBA (width height : ℕ) (zoom offsetX offsetY : ℚ)
    (maxIterations : ℕ) (x y : ℕ) : ℕ × ℕ × ℕ × ℕ :=
  let real := pixelReal width zoom offsetX x
  let imag := pixelImag height zoom offsetY y
  let iterations := MandelbrotSet.isInSet ⟨real, imag⟩ maxIterations
  if iterations = maxIterations then (0, 0, 0, 255)
  else
    let ratio : ℚ := (iterations : ℚ) / (maxIterations : ℚ)
    let hue := qmod (ratio * 360) 360
    let color := MandelbrotSet.hslToRgb hue 70 50
    (color.r, color.g, color.b, 255)

/-- One iteration of the inner `for (y ...)` loop body of the rasterizers. -/
def rasterBody (w : ℕ) (f : ℕ → ℕ → ℕ × ℕ × ℕ × ℕ) (im : ImageData) (x y : ℕ) : ImageData :=
  im.writePixel ((y * w + x) * 4) (f x y).1 (f x y).2.1 (f x y).2.2.1 (f x y).2.2.2

/-- The inner `for (y = 0; y < height; y++)` loop. -/
def rasterInner (w h : ℕ) (f : ℕ → ℕ → ℕ × ℕ × ℕ × ℕ) (x : ℕ) (im : ImageData) : ImageData :=
  (List.range h).foldl (fun im y => rasterBody w f im x y) im

/-- The outer `for (x = 0; x < width; x++)` loop over a fresh `ImageData`. -/
def rasterize (w h : ℕ) (f : ℕ → ℕ → ℕ × ℕ × ℕ × ℕ) : ImageData :=
  (List.range w).foldl (fun im x => rasterInner w h f x im) (ImageData.mkBlank w h)

/-- Embedding of `MandelbrotSet.generate(width, height, zoom, offsetX, offsetY, maxIterations)`. -/
def MandelbrotSet.generate (width height : ℕ) (zoom offsetX offsetY : ℚ)
    (maxIterations : ℕ) : ImageData :=
  rasterize width height (MandelbrotSet.pixelRGBA width height zoom offsetX offsetY maxIterations)

/-- The RGBA quadruplet `JuliaSet.generate` computes for pixel (x, y); the hue
is shifted by 180 and the palette uses saturation 80, lightness 60. -/
def JuliaSet.pixelRGBA (width height : ℕ) (zoom offsetX offsetY : ℚ) (c : ComplexQ)
    (maxIterations : ℕ) (x y : ℕ) : ℕ × ℕ × ℕ × ℕ :=
  let real := pixelReal width zoom offsetX x
  let imag := pixelImag height zoom offsetY y
  let iterations := JuliaSet.isInSet ⟨real, imag⟩ c maxIterations
  if iterations = maxIterations then (0, 0, 0, 255)
  else
    let ratio : ℚ := (iterations : ℚ) / (maxIterations : ℚ)
    let hue := qmod (ratio * 360 + 180) 360
    let color := MandelbrotSet.hslToRgb hue 80 60
    (color.r, color.g, color.b, 255)

/-- Embedding of `JuliaSet.generate(width, height, zoom, offsetX, offsetY, c, maxIterations)`. -/
def JuliaSet.generate (width height : ℕ) (zoom offsetX offsetY : ℚ) (c : ComplexQ)
    (maxIterations : ℕ) : ImageData :=
  rasterize width height (JuliaSet.pixelRGBA width height zoom offsetX offsetY c maxIterations)

/-- Embedding of `FractalTree.generate(startPoint, angle, length, iterations, branchAngle)`. -/
def FractalTree.generate (M : MathLib) (startPoint : Point) (angle length : ℚ)
    (iterations : ℕ) (branchAngle : ℚ) : List (Point × Point) :=
  match iterations with
  | 0 => []
  | n + 1 =>
    if length < 1 then []
    else
      let endPoint : Point := ⟨startPoint.x + length * M.cos angle,
                               startPoint.y + length * M.sin angle⟩
      let newLength := length * (7 / 10)
      [(startPoint, endPoint)] ++
        FractalTree.generate M endPoint (angle - branchAngle) newLength n branchAngle ++
          FractalTree.generate M endPoint (angle + branchAngle) newLength n branchAngle

/-- A concrete instantiation of the uninterpreted math library, for witnesses. -/
def M0 : MathLib := ⟨0, fun _ => 1, fun _ => 0, fun _ _ => 0, fun _ => 0⟩

/-! ### Counting and endpoint lemmas for the recursive vector generators -/

theorem KochCurve.koch_length (M : MathLib) (d : ℕ) :
    ∀ p1 p2 : Point, (KochCurve.generate M p1 p2 d).length = 4 ^ d + 1 := by
  induction d with
  | zero => intro p1 p2; rfl
  | succ n ih =>
    intro p1 p2
    simp only [KochCurve.generate, List.length_append, List.length_dropLast, ih, pow_succ]
    omega

theorem head?_dropLast_append {α : Type} (l r : List α) (a : α)
    (h : l.head? = some a) (hl : 2 ≤ l.length) : (l.dropLast ++ r).head? = some a := by
  match l with
  | [] => simp at h
  | [x] => simp at hl
  | x :: y :: t =>
    simp only [List.head?_cons, Option.some.injEq] at h
    subst h
    rw [List.dropLast_cons₂]
    rfl

theorem KochCurve.generate_ne_nil (M : MathLib) (p1 p2 : Point) (d : ℕ) :
    KochCurve.generate M p1 p2 d ≠ [] :=
  List.ne_nil_of_length_pos (by
    rw [KochCurve.koch_length]
    exact Nat.succ_pos _)

theorem KochCurve.endpoints_generate (M : MathLib) (d : ℕ) :
    ∀ p1 p2 : Point, (KochCurve.generate M p1 p2 d).head? = some p1 ∧
      (KochCurve.generate M p1 p2 d).getLast? = some p2 := by
  induction d with
  | zero => intro p1 p2; exact ⟨rfl, rfl⟩
  | succ n ih =>
    intro p1 p2
    simp only [KochCurve.generate]
    refine ⟨?_, ?_⟩
    · rw [List.append_assoc, List.append_assoc]
      exact head?_dropLast_append _ _ _ (ih p1 _).1
        (by
          rw [KochCurve.koch_length]
          have := Nat.one_le_pow n 4 (by norm_num)
          omega)
    · rw [List.getLast?_append_of_ne_nil _ (KochCurve.generate_ne_nil M _ p2 n)]
      exact (ih _ p2).2

theorem SierpinskiTriangle.sierpinski_length (d : ℕ) :
    ∀ p1 p2 p3 : Point, (SierpinskiTriangle.generate p1 p2 p3 d).length = 3 ^ d := by
  induction d with
  | zero => intro _ _ _; rfl
  | succ n ih =>
    intro p1 p2 p3
    simp only [SierpinskiTriangle.generate, List.length_append, ih, pow_succ]
    omega

theorem FractalTree.tree_length (M : MathLib) (d : ℕ) :
    ∀ (s : Point) (a l ba : ℚ), (∀ k, k < d → 1 ≤ l * (7 / 10) ^ k) →
      (FractalTree.generate M s a l d ba).length = 2 ^ d - 1 := by
  induction d with
  | zero => intro s a l ba _; rfl
  | succ n ih =>
    intro s a l ba h
    have h0 : ¬ l < 1 := by
      have := h 0 (Nat.succ_pos n)
      simp only [pow_zero, mul_one] at this
      linarith
    have hrec : ∀ k, k < n → 1 ≤ l * (7 / 10) * (7 / 10) ^ k := by
      intro k hk
      have := h (k + 1) (by omega)
      calc (1 : ℚ) ≤ l * (7 / 10) ^ (k + 1) := this
        _ = l * (7 / 10) * (7 / 10) ^ k := by ring
    simp only [FractalTree.generate, h0, if_false, List.length_append, List.length_cons,
      List.length_nil, ih _ _ _ _ hrec, pow_succ]
    have : 1 ≤ 2 ^ n := Nat.one_le_two_pow
    omega

/-! ### Escape-time loop lemmas -/

theorem MandelbrotSet.isInSetLoop_le (c : ComplexQ) :
    ∀ (r : ℕ) (z : ComplexQ) (cnt : ℕ), MandelbrotSet.isInSetLoop c z r cnt ≤ cnt + r := by
  intro r
  induction r with
  | zero => intro z cnt; exact Nat.le_refl _
  | succ n ih =>
    intro z cnt
    simp only [MandelbrotSet.isInSetLoop]
    split
    · exact le_trans (ih _ _) (by omega)
    · omega

theorem MandelbrotSet.isInSet_le (c : ComplexQ) (N : ℕ) : MandelbrotSet.isInSet c N ≤ N := by
  have := MandelbrotSet.isInSetLoop_le c N ⟨0, 0⟩ 0
  simpa [MandelbrotSet.isInSet] using this

theorem MandelbrotSet.isInSetLoop_origin :
    ∀ (r cnt : ℕ), MandelbrotSet.isInSetLoop ⟨0, 0⟩ ⟨0, 0⟩ r cnt = cnt + r := by
  intro r
  induction r with
  | zero => intro cnt; rfl
  | succ n ih =>
    intro cnt
    simp only [MandelbrotSet.isInSetLoop]
    norm_num
    rw [ih]
    omega

theorem MandelbrotSet.isInSet_origin (N : ℕ) : MandelbrotSet.isInSet ⟨0, 0⟩ N = N := by
  have := MandelbrotSet.isInSetLoop_origin N 0
  simpa [MandelbrotSet.isInSet] using this

theorem MandelbrotSet.isInSetLoop_escaped (c z : ComplexQ) (r cnt : ℕ)
    (h : ¬ z.real * z.real + z.imag * z.imag < 4) :
    MandelbrotSet.isInSetLoop c z r cnt = cnt := by
  cases r with
  | zero => rfl
  | succ n => simp only [MandelbrotSet.isInSetLoop, if_neg h]

theorem MandelbrotSet.isInSet_threeThree (N : ℕ) (h : 1 ≤ N) :
    MandelbrotSet.isInSet ⟨3, 3⟩ N = 1 := by
  obtain ⟨n, rfl⟩ : ∃ n, N = n + 1 := ⟨N - 1, by omega⟩
  show MandelbrotSet.isInSetLoop ⟨3, 3⟩ ⟨0, 0⟩ (n + 1) 0 = 1
  simp only [MandelbrotSet.isInSetLoop]
  norm_num
  exact MandelbrotSet.isInSetLoop_escaped _ _ _ _ (by norm_num)

theorem JuliaSet.isInSetLoop_eq_mandel :
    ∀ (r : ℕ) (z c : ComplexQ) (cnt : ℕ),
      JuliaSet.isInSetLoop z c r cnt = MandelbrotSet.isInSetLoop c z r cnt := by
  intro r
  induction r with
  | zero => intro z c cnt; rfl
  | succ n ih =>
    intro z c cnt
    simp only [JuliaSet.isInSetLoop, MandelbrotSet.isInSetLoop]
    split
    · exact ih _ _ _
    · rfl

theorem FractalTree.generate_eq_nil_iff (M : MathLib) (s : Point) (a l ba : ℚ) (d : ℕ) :
    FractalTree.generate M s a l d ba = [] ↔ d = 0 ∨ l < 1 := by
  cases d with
  | zero => simp [FractalTree.generate]
  | succ n =>
    simp only [FractalTree.generate]
    by_cases hl : l < 1
    · simp [hl]
    · simp [hl]

/-! ### Claim theorems (vector generators and escape-time engine) -/

/-- C1 counterexample: at depth 1 with length 100 the length floor is never hit,
yet the tree has 1 segment, not 2^(1+1) − 1 = 3. -/
theorem C1_tree_count_counterexample :
    (FractalTree.generate M0 ⟨0, 0⟩ 0 100 1 0).length ≠ 2 ^ (1 + 1) - 1 := by
  decide

/-- C1 (amended): when the length floor is never hit (length · 0.7^k ≥ 1 for all
levels k < d reached), `FractalTree.generate` at depth d returns exactly
2^d − 1 line segments (not 2^(d+1) − 1). -/
theorem C1_tree_count (M : MathLib) (s : Point) (a l ba : ℚ) (d : ℕ)
    (h : ∀ k, k < d → 1 ≤ l * (7 / 10) ^ k) :
    (FractalTree.generate M s a l d ba).length = 2 ^ d - 1 :=
  FractalTree.tree_length M d s a l ba h

/-- Witness for C1 at M0, start (0,0), angle 0, length 2, depth 2. -/
theorem C1_tree_count_witness :
    (FractalTree.generate M0 ⟨0, 0⟩ 0 2 2 0).length = 2 ^ 2 - 1 :=
  C1_tree_count M0 ⟨0, 0⟩ 0 2 0 2 (by
    intro k hk
    interval_cases k <;> norm_num)

/-- C2 counterexample: at depth 1 a Koch side has 4^1 + 1 = 5 points,
not 3^1 + 1 = 4. -/
theorem C2_koch_count_counterexample :
    (KochCurve.generate M0 ⟨0, 0⟩ ⟨1, 0⟩ 1).length ≠ 3 ^ 1 + 1 := by
  rw [KochCurve.koch_length]
  decide

/-- C2 (amended): for every p1, p2 and depth d, `KochCurve.generate` returns
exactly 4^d + 1 points (not 3^d + 1), and at d = 0 it returns exactly [p1, p2]. -/
theorem C2_koch_count (M : MathLib) (p1 p2 : Point) (d : ℕ) :
    (KochCurve.generate M p1 p2 d).length = 4 ^ d + 1 ∧
      KochCurve.generate M p1 p2 0 = [p1, p2] :=
  ⟨KochCurve.koch_length M d p1 p2, rfl⟩

/-- C3: for every triangle and depth d, `SierpinskiTriangle.generate` returns
exactly 3^d point-triples, and at d = 0 the single triple [p1, p2, p3]. -/
theorem C3_sierpinski_count (p1 p2 p3 : Point) (d : ℕ) :
    (SierpinskiTriangle.generate p1 p2 p3 d).length = 3 ^ d ∧
      SierpinskiTriangle.generate p1 p2 p3 0 = [[p1, p2, p3]] :=
  ⟨SierpinskiTriangle.sierpinski_length d p1 p2 p3, rfl⟩

/-- C4: the escape-time function returns N at the origin, a value in {0, 1} at
c = (3, 3) once N ≥ 1, and always a count in [0, N]. -/
theorem C4_escape_time (N : ℕ) :
    MandelbrotSet.isInSet ⟨0, 0⟩ N = N ∧
      (1 ≤ N → MandelbrotSet.isInSet ⟨3, 3⟩ N = 0 ∨ MandelbrotSet.isInSet ⟨3, 3⟩ N = 1) ∧
      ∀ c : ComplexQ, MandelbrotSet.isInSet c N ≤ N :=
  ⟨MandelbrotSet.isInSet_origin N,
   fun h => Or.inr (MandelbrotSet.isInSet_threeThree N h),
   fun c => MandelbrotSet.isInSet_le c N⟩

/-- Witness for C4 at N = 3 and c = (1, 1). -/
theorem C4_escape_time_witness :
    MandelbrotSet.isInSet ⟨0, 0⟩ 3 = 3 ∧
      (MandelbrotSet.isInSet ⟨3, 3⟩ 3 = 0 ∨ MandelbrotSet.isInSet ⟨3, 3⟩ 3 = 1) ∧
      MandelbrotSet.isInSet ⟨1, 1⟩ 3 ≤ 3 :=
  ⟨(C4_escape_time 3).1, (C4_escape_time 3).2.1 (by decide), (C4_escape_time 3).2.2 ⟨1, 1⟩⟩

/-- C7: `FractalTree.generate` returns [] exactly when depth = 0 or length < 1
at entry; in particular length 1/2 at depth 5 and length 100 at depth 0 both
yield []. (The recursion is structurally bounded by the depth argument, so the
embedded function is total for every rational length.) -/
theorem C7_tree_termination (M : MathLib) (s : Point) (a l ba : ℚ) (d : ℕ) :
    (FractalTree.generate M s a l d ba = [] ↔ d = 0 ∨ l < 1) ∧
      FractalTree.generate M s a (1 / 2) 5 ba = [] ∧
      FractalTree.generate M s a 100 0 ba = [] :=
  ⟨FractalTree.generate_eq_nil_iff M s a l ba d,
   (FractalTree.generate_eq_nil_iff M s a (1 / 2) ba 5).mpr (Or.inr (by norm_num)),
   rfl⟩

/-- C8: every generator is deterministic — two calls with identical arguments
are propositionally equal (the embedding is pure, with no hidden state). -/
theorem C8_generators_deterministic (M : MathLib) (p1 p2 p3 center s : Point)
    (radius a l ba zoom ox oy : ℚ) (c : ComplexQ) (d w h mi : ℕ) :
    KochCurve.generate M p1 p2 d = KochCurve.generate M p1 p2 d ∧
      KochCurve.generateSnowflake M center radius d =
        KochCurve.generateSnowflake M center radius d ∧
      SierpinskiTriangle.generate p1 p2 p3 d = SierpinskiTriangle.generate p1 p2 p3 d ∧
      MandelbrotSet.generate w h zoom ox oy mi = MandelbrotSet.generate w h zoom ox oy mi ∧
      JuliaSet.generate w h zoom ox oy c mi = JuliaSet.generate w h zoom ox oy c mi ∧
      FractalTree.generate M s a l d ba = FractalTree.generate M s a l d ba :=
  ⟨rfl, rfl, rfl, rfl, rfl, rfl⟩

/-- C9: the Julia escape loop started from z = (0, 0) computes exactly the
Mandelbrot escape function of c — the two private loops are the same function
with the roles of z and c swapped. -/
theorem C9_julia_mandel_equiv (c : ComplexQ) (m : ℕ) :
    JuliaSet.isInSet ⟨0, 0⟩ c m = MandelbrotSet.isInSet c m :=
  JuliaSet.isInSetLoop_eq_mandel m ⟨0, 0⟩ c 0

/-- C10: at every depth the first point of a Koch side is p1 and the last is
p2, so snowflake sides meet at the triangle vertices. -/
theorem C10_koch_endpoints (M : MathLib) (p1 p2 : Point) (d : ℕ) :
    (KochCurve.generate M p1 p2 d).head? = some p1 ∧
      (KochCurve.generate M p1 p2 d).getLast? = some p2 :=
  KochCurve.endpoints_generate M d p1 p2

/-! ### Raster buffer lemmas -/

theorem ImageData.width_setByte (im : ImageData) (i v : ℕ) :
    (im.setByte i v).width = im.width := by
  unfold ImageData.setByte
  split <;> rfl

theorem ImageData.height_setByte (im : ImageData) (i v : ℕ) :
    (im.setByte i v).height = im.height := by
  unfold ImageData.setByte
  split <;> rfl

theorem ImageData.size_setByte (im : ImageData) (i v : ℕ) :
    (im.setByte i v).size = im.size := by
  simp [ImageData.size, ImageData.width_setByte, ImageData.height_setByte]

theorem ImageData.width_writePixel (im : ImageData) (idx r g b a : ℕ) :
    (im.writePixel idx r g b a).width = im.width := by
  simp [ImageData.writePixel, ImageData.width_setByte]

theorem ImageData.height_writePixel (im : ImageData) (idx r g b a : ℕ) :
    (im.writePixel idx r g b a).height = im.height := by
  simp [ImageData.writePixel, ImageData.height_setByte]

theorem ImageData.data_setByte_ne (im : ImageData) (i v p : ℕ) (h : p ≠ i) :
    (im.setByte i v).data p = im.data p := by
  unfold ImageData.setByte
  split
  · simp [h]
  · rfl

theorem ImageData.data_setByte_eq (im : ImageData) (i v : ℕ) (h : i < im.size) :
    (im.setByte i v).data i = v := by
  unfold ImageData.setByte
  rw [if_pos h]
  simp

theorem ImageData.data_writePixel_ne (im : ImageData) (idx r g b a p : ℕ)
    (h : p < idx ∨ idx + 3 < p) :
    (im.writePixel idx r g b a).data p = im.data p := by
  unfold ImageData.writePixel
  rw [ImageData.data_setByte_ne _ _ _ _ (by omega),
      ImageData.data_setByte_ne _ _ _ _ (by omega),
      ImageData.data_setByte_ne _ _ _ _ (by omega),
      ImageData.data_setByte_ne _ _ _ _ (by omega)]

theorem ImageData.data_writePixel_self (im : ImageData) (idx r g b a : ℕ)
    (h : idx + 3 < im.size) :
    (im.writePixel idx r g b a).data idx = r ∧
      (im.writePixel idx r g b a).data (idx + 1) = g ∧
      (im.writePixel idx r g b a).data (idx + 2) = b ∧
      (im.writePixel idx r g b a).data (idx + 3) = a := by
  unfold ImageData.writePixel
  refine ⟨?_, ?_, ?_, ?_⟩
  · rw [ImageData.data_setByte_ne _ _ _ _ (by omega),
        ImageData.data_setByte_ne _ _ _ _ (by omega),
        ImageData.data_setByte_ne _ _ _ _ (by omega),
        ImageData.data_setByte_eq _ _ _ (by omega)]
  · rw [ImageData.data_setByte_ne _ _ _ _ (by omega),
        ImageData.data_setByte_ne _ _ _ _ (by omega),
        ImageData.data_setByte_eq _ _ _ (by simpa [ImageData.size_setByte] using (by omega : idx + 1 < im.size))]
  · rw [ImageData.data_setByte_ne _ _ _ _ (by omega),
        ImageData.data_setByte_eq _ _ _ (by simpa [ImageData.size_setByte] using (by omega : idx + 2 < im.size))]
  · rw [ImageData.data_setByte_eq _ _ _ (by simpa [ImageData.size_setByte] using h)]

theorem rasterInner_fold_width (w : ℕ) (f : ℕ → ℕ → ℕ × ℕ × ℕ × ℕ) (x : ℕ) :
    ∀ (l : List ℕ) (im : ImageData),
      (l.foldl (fun im y => rasterBody w f im x y) im).width = im.width := by
  intro l
  induction l with
  | nil => intro im; rfl
  | cons y t ih =>
    intro im
    simp only [List.foldl_cons]
    rw [ih, rasterBody, ImageData.width_writePixel]

theorem rasterInner_fold_height (w : ℕ) (f : ℕ → ℕ → ℕ × ℕ × ℕ × ℕ) (x : ℕ) :
    ∀ (l : List ℕ) (im : ImageData),
      (l.foldl (fun im y => rasterBody w f im x y) im).height = im.height := by
  intro l
  induction l with
  | nil => intro im; rfl
  | cons y t ih =>
    intro im
    simp only [List.foldl_cons]
    rw [ih, rasterBody, ImageData.height_writePixel]

theorem rasterInner_fold_frame (w : ℕ) (f : ℕ → ℕ → ℕ × ℕ × ℕ × ℕ) (x p : ℕ) :
    ∀ (l : List ℕ) (im : ImageData),
      (∀ y ∈ l, p < (y * w + x) * 4 ∨ (y * w + x) * 4 + 3 < p) →
      (l.foldl (fun im y => rasterBody w f im x y) im).data p = im.data p := by
  intro l
  induction l with
  | nil => intro im _; rfl
  | cons y t ih =>
    intro im hl
    simp only [List.foldl_cons]
    rw [ih _ (fun y' hy' => hl y' (List.mem_cons_of_mem _ hy')), rasterBody,
      ImageData.data_writePixel_ne _ _ _ _ _ _ _ (hl y (List.mem_cons_self y t))]

theorem rasterInner_fold_hit (w h : ℕ) (f : ℕ → ℕ → ℕ × ℕ × ℕ × ℕ) (x y0 : ℕ)
    (hx : x < w) (hy0 : y0 < h) :
    ∀ (l : List ℕ), l.Nodup → y0 ∈ l →
      ∀ im : ImageData, im.width = w → im.height = h →
        (l.foldl (fun im y => rasterBody w f im x y) im).data ((y0 * w + x) * 4) = (f x y0).1 ∧
        (l.foldl (fun im y => rasterBody w f im x y) im).data ((y0 * w + x) * 4 + 1) = (f x y0).2.1 ∧
        (l.foldl (fun im y => rasterBody w f im x y) im).data ((y0 * w + x) * 4 + 2) = (f x y0).2.2.1 ∧
        (l.foldl (fun im y => rasterBody w f im x y) im).data ((y0 * w + x) * 4 + 3) = (f x y0).2.2.2 := by
  intro l
  induction l with
  | nil => intro _ hmem; exact absurd hmem (List.not_mem_nil y0)
  | cons y t ih =>
    intro hnod hmem im hw hh
    have hblock : (y0 * w + x) * 4 + 3 < im.size := by
      rw [ImageData.size, hw, hh]
      have h1 : y0 * w + x < h * w := by
        calc y0 * w + x < y0 * w + w := by omega
          _ = (y0 + 1) * w := by ring
          _ ≤ h * w := Nat.mul_le_mul_right w (by omega)
      calc (y0 * w + x) * 4 + 3 < (y0 * w + x + 1) * 4 := by omega
        _ ≤ (h * w) * 4 := Nat.mul_le_mul_right 4 (by omega)
        _ = w * h * 4 := by ring
    rcases Decidable.eq_or_ne y y0 with hy | hy
    · have hnotin : y0 ∉ t := by
        rw [← hy]
        exact (List.nodup_cons.mp hnod).1
      have hsep : ∀ y' ∈ t, y' * w ≠ y0 * w := by
        intro y' hy' hEq
        have hy'' : y' = y0 := Nat.eq_of_mul_eq_mul_right (by omega) hEq
        rw [hy''] at hy'
        exact hnotin hy'
      have hself := ImageData.data_writePixel_self im ((y0 * w + x) * 4)
        (f x y0).1 (f x y0).2.1 (f x y0).2.2.1 (f x y0).2.2.2 hblock
      simp only [List.foldl_cons, hy]
      refine ⟨?_, ?_, ?_, ?_⟩
      · rw [rasterInner_fold_frame w f x ((y0 * w + x) * 4) t (rasterBody w f im x y0)
            (by intro y' hy'; have := hsep y' hy'; omega), rasterBody]
        exact hself.1
      · rw [rasterInner_fold_frame w f x ((y0 * w + x) * 4 + 1) t (rasterBody w f im x y0)
            (by intro y' hy'; have := hsep y' hy'; omega), rasterBody]
        exact hself.2.1
      · rw [rasterInner_fold_frame w f x ((y0 * w + x) * 4 + 2) t (rasterBody w f im x y0)
            (by intro y' hy'; have := hsep y' hy'; omega), rasterBody]
        exact hself.2.2.1
      · rw [rasterInner_fold_frame w f x ((y0 * w + x) * 4 + 3) t (rasterBody w f im x y0)
            (by intro y' hy'; have := hsep y' hy'; omega), rasterBody]
        exact hself.2.2.2
    · have hmem' : y0 ∈ t := by
        rcases List.mem_cons.mp hmem with hEq | hmem'
        · exact absurd hEq.symm hy
        · exact hmem'
      simp only [List.foldl_cons]
      exact ih (List.nodup_cons.mp hnod).2 hmem' _
        (by rw [rasterBody, ImageData.width_writePixel, hw])
        (by rw [rasterBody, ImageData.height_writePixel, hh])

theorem rasterOuter_fold_width (w h : ℕ) (f : ℕ → ℕ → ℕ × ℕ × ℕ × ℕ) :
    ∀ (l : List ℕ) (im : ImageData),
      (l.foldl (fun im x => rasterInner w h f x im) im).width = im.width := by
  intro l
  induction l with
  | nil => intro im; rfl
  | cons x t ih =>
    intro im
    simp only [List.foldl_cons]
    rw [ih, rasterInner, rasterInner_fold_width]

theorem rasterOuter_fold_height (w h : ℕ) (f : ℕ → ℕ → ℕ × ℕ × ℕ × ℕ) :
    ∀ (l : List ℕ) (im : ImageData),
      (l.foldl (fun im x => rasterInner w h f x im) im).height = im.height := by
  intro l
  induction l with
  | nil => intro im; rfl
  | cons x t ih =>
    intro im
    simp only [List.foldl_cons]
    rw [ih, rasterInner, rasterInner_fold_height]

theorem rasterOuter_fold_frame (w h : ℕ) (f : ℕ → ℕ → ℕ × ℕ × ℕ × ℕ) (p : ℕ) :
    ∀ (l : List ℕ) (im : ImageData),
      (∀ x' ∈ l, ∀ y ∈ List.range h, p < (y * w + x') * 4 ∨ (y * w + x') * 4 + 3 < p) →
      (l.foldl (fun im x => rasterInner w h f x im) im).data p = im.data p := by
  intro l
  induction l with
  | nil => intro im _; rfl
  | cons x t ih =>
    intro im hl
    simp only [List.foldl_cons]
    rw [ih _ (fun x' hx' => hl x' (List.mem_cons_of_mem _ hx')), rasterInner,
      rasterInner_fold_frame w f x p (List.range h) im (hl x (List.mem_cons_self x t))]

theorem rasterOuter_fold_hit (w h : ℕ) (f : ℕ → ℕ → ℕ × ℕ × ℕ × ℕ) (x0 y0 : ℕ)
    (hx : x0 < w) (hy : y0 < h) :
    ∀ (l : List ℕ), l.Nodup → x0 ∈ l → (∀ x' ∈ l, x' < w) →
      ∀ im : ImageData, im.width = w → im.height = h →
        (l.foldl (fun im x => rasterInner w h f x im) im).data ((y0 * w + x0) * 4) = (f x0 y0).1 ∧
        (l.foldl (fun im x => rasterInner w h f x im) im).data ((y0 * w + x0) * 4 + 1) = (f x0 y0).2.1 ∧
        (l.foldl (fun im x => rasterInner w h f x im) im).data ((y0 * w + x0) * 4 + 2) = (f x0 y0).2.2.1 ∧
        (l.foldl (fun im x => rasterInner w h f x im) im).data ((y0 * w + x0) * 4 + 3) = (f x0 y0).2.2.2 := by
  intro l
  induction l with
  | nil => intro _ hmem _; exact absurd hmem (List.not_mem_nil x0)
  | cons x t ih =>
    intro hnod hmem hbound im hw hh
    rcases Decidable.eq_or_ne x x0 with hxeq | hxeq
    · have hnotin : x0 ∉ t := by
        rw [← hxeq]
        exact (List.nodup_cons.mp hnod).1
      have hsep : ∀ x' ∈ t, ∀ y ∈ List.range h, y * w + x' ≠ y0 * w + x0 := by
        intro x' hx' y _ hEq
        have hx'w : x' < w := hbound x' (List.mem_cons_of_mem _ hx')
        have h1 : (y * w + x') % w = x' := by
          rw [mul_comm, Nat.mul_add_mod, Nat.mod_eq_of_lt hx'w]
        have h2 : (y0 * w + x0) % w = x0 := by
          rw [mul_comm, Nat.mul_add_mod, Nat.mod_eq_of_lt hx]
        rw [hEq, h2] at h1
        rw [← h1] at hx'
        exact hnotin hx'
      have hinner := rasterInner_fold_hit w h f x0 y0 hx hy (List.range h)
        (List.nodup_range h) (List.mem_range.mpr hy) im hw hh
      simp only [List.foldl_cons, hxeq]
      refine ⟨?_, ?_, ?_, ?_⟩
      · rw [rasterOuter_fold_frame w h f ((y0 * w + x0) * 4) t (rasterInner w h f x0 im)
            (by intro x' hx' y hyr; have := hsep x' hx' y hyr; omega), rasterInner]
        exact hinner.1
      · rw [rasterOuter_fold_frame w h f ((y0 * w + x0) * 4 + 1) t (rasterInner w h f x0 im)
            (by intro x' hx' y hyr; have := hsep x' hx' y hyr; omega), rasterInner]
        exact hinner.2.1
      · rw [rasterOuter_fold_frame w h f ((y0 * w + x0) * 4 + 2) t (rasterInner w h f x0 im)
            (by intro x' hx' y hyr; have := hsep x' hx' y hyr; omega), rasterInner]
        exact hinner.2.2.1
      · rw [rasterOuter_fold_frame w h f ((y0 * w + x0) * 4 + 3) t (rasterInner w h f x0 im)
            (by intro x' hx' y hyr; have := hsep x' hx' y hyr; omega), rasterInner]
        exact hinner.2.2.2
    · have hmem' : x0 ∈ t := by
        rcases List.mem_cons.mp hmem with hEq | hm
        · exact absurd hEq.symm hxeq
        · exact hm
      simp only [List.foldl_cons]
      exact ih (List.nodup_cons.mp hnod).2 hmem'
        (fun x' hx' => hbound x' (List.mem_cons_of_mem _ hx')) _
        (by rw [rasterInner, rasterInner_fold_width, hw])
        (by rw [rasterInner, rasterInner_fold_height, hh])

theorem rasterize_width (w h : ℕ) (f : ℕ → ℕ → ℕ × ℕ × ℕ × ℕ) :
    (rasterize w h f).width = w := by
  rw [rasterize, rasterOuter_fold_width]
  rfl

theorem rasterize_height (w h : ℕ) (f : ℕ → ℕ → ℕ × ℕ × ℕ × ℕ) :
    (rasterize w h f).height = h := by
  rw [rasterize, rasterOuter_fold_height]
  rfl

theorem rasterize_data (w h : ℕ) (f : ℕ → ℕ → ℕ × ℕ × ℕ × ℕ) (x0 y0 : ℕ)
    (hx : x0 < w) (hy : y0 < h) :
    (rasterize w h f).data ((y0 * w + x0) * 4) = (f x0 y0).1 ∧
      (rasterize w h f).data ((y0 * w + x0) * 4 + 1) = (f x0 y0).2.1 ∧
      (rasterize w h f).data ((y0 * w + x0) * 4 + 2) = (f x0 y0).2.2.1 ∧
      (rasterize w h f).data ((y0 * w + x0) * 4 + 3) = (f x0 y0).2.2.2 := by
  rw [rasterize]
  exact rasterOuter_fold_hit w h f x0 y0 hx hy (List.range w) (List.nodup_range w)
    (List.mem_range.mpr hx) (fun x' hx' => List.mem_range.mp hx') (ImageData.mkBlank w h) rfl rfl

/-! ### Claim theorems (rasterizers) -/

theorem JuliaSet.pixelRGBA_alpha (width height : ℕ) (zoom ox oy : ℚ) (c : ComplexQ)
    (mi x y : ℕ) : (JuliaSet.pixelRGBA width height zoom ox oy c mi x y).2.2.2 = 255 := by
  simp only [JuliaSet.pixelRGBA]
  split <;> rfl

theorem pixelReal_center (W : ℕ) (hW : W % 2 = 0) : pixelReal W 1 0 (W / 2) = 0 := by
  obtain ⟨m, rfl⟩ : ∃ m, W = 2 * m := ⟨W / 2, by omega⟩
  have h2 : 2 * m / 2 = m := by omega
  have hnum : ((m : ℚ)) - ((2 * m : ℕ) : ℚ) / 2 = 0 := by push_cast; ring
  rw [pixelReal, h2, hnum, zero_div, add_zero]

theorem pixelImag_center (W : ℕ) (hW : W % 2 = 0) : pixelImag W 1 0 (W / 2) = 0 := by
  obtain ⟨m, rfl⟩ : ∃ m, W = 2 * m := ⟨W / 2, by omega⟩
  have h2 : 2 * m / 2 = m := by omega
  have hnum : ((m : ℚ)) - ((2 * m : ℕ) : ℚ) / 2 = 0 := by push_cast; ring
  rw [pixelImag, h2, hnum, zero_div, add_zero]

theorem MandelbrotSet.pixelRGBA_center (W mi : ℕ) (hW : W % 2 = 0) :
    MandelbrotSet.pixelRGBA W W 1 0 0 mi (W / 2) (W / 2) = (0, 0, 0, 255) := by
  simp only [MandelbrotSet.pixelRGBA]
  rw [pixelReal_center W hW, pixelImag_center W hW, MandelbrotSet.isInSet_origin]
  simp

/-- C5: for an even canvas W = width = height, zoom 1 and zero offsets, the
center pixel (W/2, W/2) maps to the complex origin, and
`MandelbrotSet.generate` writes the opaque-black RGBA value (0, 0, 0, 255)
at that pixel whenever maxIterations ≥ 50. -/
theorem C5_mandelbrot_center (W : ℕ) (hpos : 0 < W) (heven : W % 2 = 0)
    (mi : ℕ) (hmi : 50 ≤ mi) :
    pixelReal W 1 0 (W / 2) = 0 ∧ pixelImag W 1 0 (W / 2) = 0 ∧
      (MandelbrotSet.generate W W 1 0 0 mi).data (((W / 2) * W + W / 2) * 4) = 0 ∧
      (MandelbrotSet.generate W W 1 0 0 mi).data (((W / 2) * W + W / 2) * 4 + 1) = 0 ∧
      (MandelbrotSet.generate W W 1 0 0 mi).data (((W / 2) * W + W / 2) * 4 + 2) = 0 ∧
      (MandelbrotSet.generate W W 1 0 0 mi).data (((W / 2) * W + W / 2) * 4 + 3) = 255 := by
  have hhalf : W / 2 < W := Nat.div_lt_self hpos (by omega)
  have hdata := rasterize_data W W (MandelbrotSet.pixelRGBA W W 1 0 0 mi)
    (W / 2) (W / 2) hhalf hhalf
  rw [MandelbrotSet.pixelRGBA_center W mi heven] at hdata
  refine ⟨pixelReal_center W heven, pixelImag_center W heven, ?_, ?_, ?_, ?_⟩
  · rw [MandelbrotSet.generate]; exact hdata.1
  · rw [MandelbrotSet.generate]; exact hdata.2.1
  · rw [MandelbrotSet.generate]; exact hdata.2.2.1
  · rw [MandelbrotSet.generate]; exact hdata.2.2.2

/-- Witness for C5 at W = 2, maxIterations = 50. -/
theorem C5_mandelbrot_center_witness :
    pixelReal 2 1 0 (2 / 2) = 0 ∧ pixelImag 2 1 0 (2 / 2) = 0 ∧
      (MandelbrotSet.generate 2 2 1 0 0 50).data (((2 / 2) * 2 + 2 / 2) * 4) = 0 ∧
      (MandelbrotSet.generate 2 2 1 0 0 50).data (((2 / 2) * 2 + 2 / 2) * 4 + 1) = 0 ∧
      (MandelbrotSet.generate 2 2 1 0 0 50).data (((2 / 2) * 2 + 2 / 2) * 4 + 2) = 0 ∧
      (MandelbrotSet.generate 2 2 1 0 0 50).data (((2 / 2) * 2 + 2 / 2) * 4 + 3) = 255 :=
  C5_mandelbrot_center 2 (by decide) (by decide) 50 (by decide)

/-- C6: for positive dimensions and any zoom > 0, offsets, constant c and
iteration cap, `JuliaSet.generate` produces a buffer of exactly
width × height × 4 bytes whose every fourth byte (each pixel's alpha) is 255. -/
theorem C6_julia_buffer (w h : ℕ) (hw : 0 < w) (hh : 0 < h) (zoom ox oy : ℚ)
    (hz : 0 < zoom) (c : ComplexQ) (mi : ℕ) :
    (JuliaSet.generate w h zoom ox oy c mi).size = w * h * 4 ∧
      ∀ i, i < w * h * 4 → i % 4 = 3 →
        (JuliaSet.generate w h zoom ox oy c mi).data i = 255 := by
  constructor
  · rw [ImageData.size, JuliaSet.generate, rasterize_width, rasterize_height]
  · intro i hi hmod
    have hx : (i / 4) % w < w := Nat.mod_lt _ hw
    have hq : (i / 4) / w * w + (i / 4) % w = i / 4 := by
      rw [mul_comm]
      exact Nat.div_add_mod (i / 4) w
    have hdiv : i / 4 < w * h := by omega
    have hy : (i / 4) / w < h := by
      rw [mul_comm w h] at hdiv
      exact (Nat.div_lt_iff_lt_mul hw).mpr hdiv
    have hdata := (rasterize_data w h (JuliaSet.pixelRGBA w h zoom ox oy c mi)
      ((i / 4) % w) ((i / 4) / w) hx hy).2.2.2
    have hi4 : i = ((i / 4) / w * w + (i / 4) % w) * 4 + 3 := by omega
    rw [JuliaSet.generate, hi4, hdata]
    exact JuliaSet.pixelRGBA_alpha w h zoom ox oy c mi _ _

/-- Witness for C6 at a 1×1 canvas, zoom 1, the default c = (−0.7, 0.27015),
maxIterations 1. -/
theorem C6_julia_buffer_witness :
    (JuliaSet.generate 1 1 1 0 0 ⟨-7/10, 27015/100000⟩ 1).size = 1 * 1 * 4 ∧
      ∀ i, i < 1 * 1 * 4 → i % 4 = 3 →
        (JuliaSet.generate 1 1 1 0 0 ⟨-7/10, 27015/100000⟩ 1).data i = 255 :=
  C6_julia_buffer 1 1 (by decide) (by decide) 1 0 0 (by norm_num) ⟨-7/10, 27015/100000⟩ 1
